import Mathlib

/-!
Shallow embedding of the HTML-table extraction core of `src/app.py`
(class `RobustScreenerScraper`).  HTML elements are modelled by the data
the code reads from them: a table is its optional `<thead>` (the list of
`th` cell texts) and its optional `<tbody>` (the list of rows, each the
list of its `td` cell texts); a document is the association of section
ids to the optional data table found in each section.  BeautifulSoup's
`get_text(strip=True)` on a cell is modelled as Python `str.strip` of
the cell's text; Python dicts are modelled as association lists with
Python's insertion-order semantics (assignment to an existing key
overwrites in place, a new key is appended); a raised exception is
modelled as `Except.error`.
-/

namespace ScreenerScraper

/-- Whitespace characters stripped by Python `str.strip()` (the ASCII
whitespace set, which covers every string arising here). -/
def isPySpace (c : Char) : Bool :=
  c = ' ' || c = '\t' || c = '\n' || c = '\r' || c = '\x0b' || c = '\x0c'

/-- Python `str.strip()` on a character list: drop leading and trailing
whitespace. -/
def pyStripList (l : List Char) : List Char :=
  ((l.dropWhile isPySpace).reverse.dropWhile isPySpace).reverse

/-- Python `str.strip()` / BeautifulSoup `get_text(strip=True)` on a
single-text cell. -/
def pyStrip (s : String) : String :=
  (pyStripList s.toList).asString

/-- The character class kept by `re.sub(r'[^\d.-]', '', value)`:
digits, the decimal point and the minus sign. -/
def keepChar (c : Char) : Bool :=
  c.isDigit || c = '.' || c = '-'

/-- Models `RobustScreenerScraper._clean_cell_value`: remove commas,
then remove every character outside `[\d.-]`, then `strip()`. -/
def cleanCellValue (value : String) : String :=
  (pyStripList ((value.toList.filter (fun c => c != ',')).filter keepChar)).asString

/-- A parsed table row record: a Python dict from column label to cell
value, as an insertion-ordered association list with unique keys. -/
abbrev Record := List (String × String)

/-- Python dict assignment `d[k] = v`: overwrite the value in place if
the key is present, append the pair otherwise. -/
def dictInsert : Record → String → String → Record
  | [], k, v => [(k, v)]
  | p :: rest, k, v =>
    if p.1 == k then (k, v) :: rest else p :: dictInsert rest k v

/-- An HTML `<table>` as the extraction code reads it: the raw texts of
the `th` cells of its `<thead>` (if a `<thead>` element exists) and the
rows of raw `td` cell texts of its `<tbody>` (if a `<tbody>` exists). -/
structure HtmlTable where
  thead : Option (List String)
  tbody : Option (List (List String))

/-- Models `RobustScreenerScraper._extract_headers`.  The source calls
`table.find('thead').find_all('th')` and, on fallback,
`table.find('tbody').find('tr')`; when the element is absent, `find`
returns `None` and the attribute access raises `AttributeError`,
modelled as `Except.error`. -/
def extractHeaders (t : HtmlTable) : Except String (List String) :=
  match t.thead with
  | none => .error "AttributeError"
  | some ths =>
    let headers := ths.map pyStrip
    if headers = [] ∨ headers.length < 2 then
      match t.tbody with
      | none => .error "AttributeError"
      | some rows =>
        match rows with
        | [] => .ok headers
        | firstRow :: _ => .ok (firstRow.map pyStrip)
    else
      .ok headers

/-- The record built by `_extract_table_data` for an accepted row:
start the dict with `row_name` bound to the stripped first cell, then
for each `(header, cell)` of `zip(headers, cells)` assign the cleaned
cell text to the header key. -/
def buildRecord (headers cells : List String) : Record :=
  (headers.zip cells).foldl
    (fun d hc => dictInsert d hc.1 (cleanCellValue (pyStrip hc.2)))
    [("row_name", pyStrip (cells.headD ""))]

/-- One loop iteration of `_extract_table_data`: skip the row if it has
no cells or its cell count differs from the header count, otherwise
build its record. -/
def processRow (headers cells : List String) : Option Record :=
  match cells with
  | [] => none
  | _ :: _ =>
    if cells.length = headers.length then some (buildRecord headers cells)
    else none

/-- Models `RobustScreenerScraper._extract_table_data`.  The source
iterates `table.find('tbody').find_all('tr')`; an absent `<tbody>`
raises `AttributeError`. -/
def extractTableData (t : HtmlTable) (headers : List String) :
    Except String (List Record) :=
  match t.tbody with
  | none => .error "AttributeError"
  | some rows => .ok (rows.filterMap (processRow headers))

/-- Models `RobustScreenerScraper._clean_and_validate_data`: drop every
record with `len(item) <= 1` (only `row_name` present). -/
def cleanAndValidateData (data : List Record) : List Record :=
  data.filter (fun item => decide (1 < item.length))

/-- A fetched page as the extraction code reads it: whether the content
string is falsy (`if not html_content`), and the association of section
ids to the optional `data-table` of each `card card-large` section
present in the markup. -/
structure RawDocument where
  isBlank : Bool
  sections : List (String × Option HtmlTable)

/-- Models `soup.find('section', id=section_id, class_='card card-large')`
followed by `section.find('table', class_='data-table')`: `none` when
the section is absent, `some none` when it has no data table. -/
def findSection (doc : RawDocument) (sectionId : String) :
    Option (Option HtmlTable) :=
  (doc.sections.find? (fun p => p.1 == sectionId)).map (fun p => p.2)

/-- Models `RobustScreenerScraper.extract_financial_data`: blank
content, a missing section or a missing table give `[]`; any exception
from header or row extraction is caught by the surrounding
`try/except`, also giving `[]`; otherwise the extracted records are
cleaned and returned. -/
def extractFinancialData (doc : RawDocument) (sectionId : String) :
    List Record :=
  if doc.isBlank then []
  else
    match findSection doc sectionId with
    | none => []
    | some none => []
    | some (some table) =>
      match extractHeaders table with
      | .error _ => []
      | .ok headers =>
        match extractTableData table headers with
        | .error _ => []
        | .ok data => cleanAndValidateData data

/-! Helper lemmas about the Cell Normalizer. -/

theorem toList_asString (l : List Char) : (l.asString).toList = l := rfl

theorem dropWhile_eq_self_of_not (p : Char → Bool) (l : List Char)
    (h : ∀ c ∈ l, p c = false) : l.dropWhile p = l := by
  cases l with
  | nil => rfl
  | cons c t => simp [List.dropWhile_cons, h c (by simp)]

theorem pyStripList_eq_self (l : List Char)
    (h : ∀ c ∈ l, isPySpace c = false) : pyStripList l = l := by
  unfold pyStripList
  rw [dropWhile_eq_self_of_not _ _ h,
    dropWhile_eq_self_of_not _ _ (fun c hc => h c (List.mem_reverse.mp hc)),
    List.reverse_reverse]

theorem isPySpace_false_of_keep (c : Char) (h : keepChar c = true) :
    isPySpace c = false := by
  cases hb : isPySpace c
  · rfl
  · have hc : ((((c = ' ' ∨ c = '\t') ∨ c = '\n') ∨ c = '\r') ∨ c = '\x0b') ∨ c = '\x0c' := by
      simpa [isPySpace] using hb
    rcases hc with ((((h1 | h1) | h1) | h1) | h1) | h1 <;> subst h1 <;> revert h <;> decide

theorem cleanCellValue_eq_filter (s : String) :
    cleanCellValue s = (s.toList.filter keepChar).asString := by
  unfold cleanCellValue
  rw [List.filter_filter]
  have hcomb : s.toList.filter (fun c => keepChar c && (c != ',')) =
      s.toList.filter keepChar := by
    apply List.filter_congr
    intro c _
    cases hk : keepChar c with
    | false => simp
    | true =>
      have hc : c ≠ ',' := by
        intro he
        subst he
        revert hk
        decide
      simp [hc]
  rw [hcomb, pyStripList_eq_self]
  intro c hc
  exact isPySpace_false_of_keep c (List.mem_filter.mp hc).2

/-- C4: the Cell Normalizer is a total function that removes commas, then
strips every character that is not a digit, a decimal point, or a minus
sign, and returns the trimmed (here: trivially trimmed, as no whitespace
survives the character filter) possibly empty string; in particular
`normalize("1,234.50") = "1234.50"` and `normalize("N/A") = ""`. -/
theorem cleanCellValue_total_policy :
    (∀ s : String, cleanCellValue s = (s.toList.filter keepChar).asString) ∧
    cleanCellValue "1,234.50" = "1234.50" ∧
    cleanCellValue "N/A" = "" ∧
    cleanCellValue "" = "" ∧
    cleanCellValue "₹" = "" ∧
    cleanCellValue "--" = "--" :=
  ⟨cleanCellValue_eq_filter, by decide, by decide, by decide, by decide, by decide⟩

/-- C5: the Cell Normalizer is idempotent: for every input string `x`,
`normalize(normalize(x)) = normalize(x)`. -/
theorem cleanCellValue_idempotent (x : String) :
    cleanCellValue (cleanCellValue x) = cleanCellValue x := by
  rw [cleanCellValue_eq_filter (cleanCellValue x), cleanCellValue_eq_filter x,
    toList_asString, List.filter_filter]
  congr 1
  apply List.filter_congr
  intro a _
  cases h : keepChar a <;> simp [h]

/-! Helper lemmas about dict records and row processing. -/

theorem lookup_dictInsert (d : Record) (k v a : String) :
    List.lookup a (dictInsert d k v) =
      if a = k then some v else List.lookup a d := by
  induction d with
  | nil =>
    by_cases hak : a = k
    · simp [dictInsert, List.lookup, hak]
    · have hb : (a == k) = false := beq_eq_false_iff_ne.mpr hak
      simp [dictInsert, List.lookup, hak, hb]
  | cons p rest ih =>
    obtain ⟨pk, pv⟩ := p
    by_cases hpk : pk = k
    · subst hpk
      by_cases hak : a = pk
      · simp [dictInsert, List.lookup, hak]
      · have hb : (a == pk) = false := beq_eq_false_iff_ne.mpr hak
        simp [dictInsert, List.lookup, hak, hb]
    · have hbpk : (pk == k) = false := beq_eq_false_iff_ne.mpr hpk
      by_cases hap : a = pk
      · subst hap
        have hak : ¬a = k := hpk
        simp [dictInsert, List.lookup, hbpk, hak]
      · have hbap : (a == pk) = false := beq_eq_false_iff_ne.mpr hap
        by_cases hak : a = k
        · subst hak
          simp [dictInsert, List.lookup, hbpk, hbap, ih]
        · simp [dictInsert, List.lookup, hbpk, hbap, hak, ih]

theorem keys_dictInsert (d : Record) (k v : String) :
    (dictInsert d k v).map Prod.fst =
      if k ∈ d.map Prod.fst then d.map Prod.fst
      else d.map Prod.fst ++ [k] := by
  induction d with
  | nil => simp [dictInsert]
  | cons p rest ih =>
    obtain ⟨pk, pv⟩ := p
    by_cases hpk : pk = k
    · subst hpk; simp [dictInsert]
    · by_cases hk : k ∈ rest.map Prod.fst <;>
        simp [dictInsert, Ne.symm hpk, hpk, hk, ih]

theorem nodup_keys_dictInsert (d : Record) (k v : String)
    (h : (d.map Prod.fst).Nodup) :
    ((dictInsert d k v).map Prod.fst).Nodup := by
  rw [keys_dictInsert]
  by_cases hk : k ∈ d.map Prod.fst
  · simpa [hk] using h
  · rw [if_neg hk, List.nodup_append]
    refine ⟨h, List.nodup_singleton k, ?_⟩
    intro x hx hx'
    simp at hx'
    subst hx'
    exact hk hx

theorem nodup_keys_foldl (g : String × String → String) :
    ∀ (pairs : List (String × String)) (d : Record),
      (d.map Prod.fst).Nodup →
      ((pairs.foldl (fun d hc => dictInsert d hc.1 (g hc)) d).map Prod.fst).Nodup := by
  intro pairs
  induction pairs with
  | nil => intro d h; simpa using h
  | cons hc rest ih => intro d h; exact ih _ (nodup_keys_dictInsert _ _ _ h)

theorem nodup_keys_buildRecord (headers cells : List String) :
    ((buildRecord headers cells).map Prod.fst).Nodup :=
  nodup_keys_foldl _ _ _ (by simp)

theorem lookup_foldl_dictInsert (g : String × String → String) (a : String) :
    ∀ (pairs : List (String × String)) (d : Record),
      List.lookup a (pairs.foldl (fun d hc => dictInsert d hc.1 (g hc)) d) =
        ((pairs.reverse.find? (fun p => p.1 == a)).map g).or (List.lookup a d) := by
  intro pairs
  induction pairs with
  | nil => intro d; simp
  | cons hc rest ih =>
    intro d
    rw [List.foldl_cons, ih, List.reverse_cons, List.find?_append]
    cases hfind : rest.reverse.find? (fun p => p.1 == a) with
    | some q => simp
    | none =>
      rw [lookup_dictInsert]
      by_cases hak : a = hc.1
      · simp [List.find?, hak]
      · have : (hc.1 == a) = false := by simp [Ne.symm hak]
        simp [List.find?, this, hak]

theorem lookup_buildRecord (headers cells : List String) (a : String) :
    List.lookup a (buildRecord headers cells) =
      (((headers.zip cells).reverse.find? (fun p => p.1 == a)).map
        (fun q => cleanCellValue (pyStrip q.2))).or
        (List.lookup a [("row_name", pyStrip (cells.headD ""))]) :=
  lookup_foldl_dictInsert _ a _ _

theorem processRow_eq (headers : List String) (r : List String) :
    processRow headers r =
      if r ≠ [] ∧ r.length = headers.length then some (buildRecord headers r)
      else none := by
  cases r with
  | nil => simp [processRow]
  | cons c cs =>
    by_cases h : (c :: cs).length = headers.length <;> simp [processRow, h]


/-! Concrete sample inputs used by counterexamples and witnesses. -/

/-- A table whose declared header row is empty and whose first data row
is populated, followed by one ordinary data row. -/
def fallbackTable : HtmlTable :=
  { thead := some [],
    tbody := some [["Particulars", "Mar 2021", "Mar 2022"],
                   ["Sales", "1,234", "2,500"]] }

/-- A document holding `fallbackTable` in its profit-loss section. -/
def fallbackDoc : RawDocument :=
  { isBlank := false, sections := [("profit-loss", some fallbackTable)] }

/-- The table of claim C2: declared header `["", "Mar 2021", "Mar 2022"]`
and the single data row `["Sales", "1,234", "2,500"]`. -/
def headerZeroTable : HtmlTable :=
  { thead := some ["", "Mar 2021", "Mar 2022"],
    tbody := some [["Sales", "1,234", "2,500"]] }

/-- A document holding `headerZeroTable` in its profit-loss section. -/
def headerZeroDoc : RawDocument :=
  { isBlank := false, sections := [("profit-loss", some headerZeroTable)] }

/-- A table body mixing an accepted row, an empty row and a short row. -/
def mixedRowsTable : HtmlTable :=
  { thead := some ["", "Mar 2021"],
    tbody := some [["Sales", "1,234"], [], ["Total"]] }

/-- A table with no `<thead>` element at all. -/
def noTheadTable : HtmlTable :=
  { thead := none, tbody := some [["Particulars", "Mar 2021", "Mar 2022"]] }

/-- A table with a degenerate header row and no `<tbody>` element. -/
def noTbodyTable : HtmlTable :=
  { thead := some [""], tbody := none }

/-- A table with a full header row and no `<tbody>` element. -/
def headerOnlyTable : HtmlTable :=
  { thead := some ["Narration", "Mar 2021"], tbody := none }

/-- A table with a proper header row and an empty body. -/
def emptyBodyTable : HtmlTable :=
  { thead := some ["", "Mar 2021"], tbody := some [] }

/-- A document whose cash-flow section's table has an empty body. -/
def emptyBodyDoc : RawDocument :=
  { isBlank := false, sections := [("cash-flow", some emptyBodyTable)] }

/-- C1 counterexample: with an empty declared header row, the fallback
headers are the trimmed first-data-row texts, but that first data row is
NOT consumed — it reappears as the first Record of the extraction
result (its cell count necessarily equals the fallback header count). -/
theorem fallback_first_row_reemitted_cex :
    extractHeaders fallbackTable =
      Except.ok ["Particulars", "Mar 2021", "Mar 2022"] ∧
    extractFinancialData fallbackDoc "profit-loss" =
      [[("row_name", "Particulars"), ("Particulars", ""),
        ("Mar 2021", "2021"), ("Mar 2022", "2022")],
       [("row_name", "Sales"), ("Particulars", ""),
        ("Mar 2021", "1234"), ("Mar 2022", "2500")]] ∧
    (extractFinancialData fallbackDoc "profit-loss").map
      (List.lookup "row_name") = [some "Particulars", some "Sales"] :=
  ⟨rfl, by decide, by decide⟩

/-- C1 (amended): when the declared header row yields fewer than 2
entries and the table body starts with a non-empty data row,
`resolveHeaders` returns that row's trimmed cell texts, and row
extraction re-iterates the whole body, so the first data row is
re-emitted as the first Record of the extraction result rather than
being consumed. -/
theorem fallback_headers_first_row_reemitted (ths r0 : List String)
    (rest : List (List String)) (hshort : ths.length < 2) (hne : r0 ≠ []) :
    extractHeaders { thead := some ths, tbody := some (r0 :: rest) } =
      Except.ok (r0.map pyStrip) ∧
    extractTableData { thead := some ths, tbody := some (r0 :: rest) }
        (r0.map pyStrip) =
      Except.ok (buildRecord (r0.map pyStrip) r0 ::
        rest.filterMap (processRow (r0.map pyStrip))) := by
  constructor
  · have hcond : (ths.map pyStrip) = [] ∨ (ths.map pyStrip).length < 2 :=
      Or.inr (by simpa using hshort)
    simp only [extractHeaders, if_pos hcond]
  · have hp : processRow (r0.map pyStrip) r0 =
        some (buildRecord (r0.map pyStrip) r0) := by
      rw [processRow_eq, if_pos ⟨hne, by simp⟩]
    simp only [extractTableData, List.filterMap_cons, hp]

/-- Witness for the amended C1 at the fallback table of the spec's own
example. -/
theorem fallback_headers_first_row_reemitted_witness :
    (([] : List String).length < 2) ∧
    ((["Particulars", "Mar 2021", "Mar 2022"] : List String) ≠ []) ∧
    (extractHeaders fallbackTable =
      Except.ok (["Particulars", "Mar 2021", "Mar 2022"].map pyStrip) ∧
    extractTableData fallbackTable
        (["Particulars", "Mar 2021", "Mar 2022"].map pyStrip) =
      Except.ok (buildRecord
          (["Particulars", "Mar 2021", "Mar 2022"].map pyStrip)
          ["Particulars", "Mar 2021", "Mar 2022"] ::
        [["Sales", "1,234", "2,500"]].filterMap
          (processRow (["Particulars", "Mar 2021", "Mar 2022"].map pyStrip)))) :=
  ⟨by decide, by decide,
    fallback_headers_first_row_reemitted [] ["Particulars", "Mar 2021", "Mar 2022"]
      [["Sales", "1,234", "2,500"]] (by decide) (by decide)⟩

/-- C2 counterexample: on the claim's exact table the Section Extractor
returns one Record whose key `""` holds `""` (the normalized first
cell), not `"Sales"` as the claim states. -/
theorem end_to_end_blank_header_cex :
    extractFinancialData headerZeroDoc "profit-loss" =
      [[("row_name", "Sales"), ("", ""),
        ("Mar 2021", "1234"), ("Mar 2022", "2500")]] ∧
    List.lookup "" [("row_name", "Sales"), ("", ""),
        ("Mar 2021", "1234"), ("Mar 2022", "2500")] = some "" ∧
    List.lookup "" [("row_name", "Sales"), ("", ""),
        ("Mar 2021", "1234"), ("Mar 2022", "2500")] ≠ some "Sales" :=
  ⟨by decide, by decide, by decide⟩

/-- C2 (amended): the Section Extractor returns exactly one Record with
`row_name` bound to the raw row label `"Sales"`, while every
header-keyed entry — including header `""`, zipped against the first
cell — holds the normalized cell value, so the key `""` holds
`normalize("Sales") = ""`. -/
theorem end_to_end_blank_header_record :
    extractFinancialData headerZeroDoc "profit-loss" =
      [[("row_name", "Sales"), ("", ""),
        ("Mar 2021", "1234"), ("Mar 2022", "2500")]] ∧
    cleanCellValue "Sales" = "" :=
  ⟨by decide, by decide⟩

/-- C3: every Record returned by row extraction comes from a data row
whose cell count exactly equals the header count; rows with zero cells
or a mismatched count contribute nothing, never a truncated or padded
Record, and accepted Records keep their source-row order. -/
theorem rows_accepted_iff_exact_cell_count (t : HtmlTable)
    (headers : List String) (rows : List (List String))
    (h : t.tbody = some rows) :
    extractTableData t headers =
      Except.ok ((rows.filter
          (fun r => decide (r ≠ [] ∧ r.length = headers.length))).map
        (buildRecord headers)) := by
  have hrows : ∀ rs : List (List String),
      rs.filterMap (processRow headers) =
        (rs.filter (fun r => decide (r ≠ [] ∧ r.length = headers.length))).map
          (buildRecord headers) := by
    intro rs
    induction rs with
    | nil => rfl
    | cons r rs ih =>
      by_cases hr : r ≠ [] ∧ r.length = headers.length <;>
        simp [List.filterMap_cons, List.filter_cons, processRow_eq, hr, ih]
  unfold extractTableData
  rw [h]
  exact congrArg Except.ok (hrows rows)

/-- Witness for C3 on a body mixing an accepted row, an empty row and a
short row. -/
theorem rows_accepted_iff_exact_cell_count_witness :
    mixedRowsTable.tbody = some [["Sales", "1,234"], [], ["Total"]] ∧
    extractTableData mixedRowsTable ["", "Mar 2021"] =
      Except.ok (([["Sales", "1,234"], [], ["Total"]].filter
          (fun r => decide (r ≠ [] ∧
            r.length = (["", "Mar 2021"] : List String).length))).map
        (buildRecord ["", "Mar 2021"])) :=
  ⟨rfl, rows_accepted_iff_exact_cell_count mixedRowsTable ["", "Mar 2021"]
    [["Sales", "1,234"], [], ["Total"]] rfl⟩

/-- C6 counterexample: `resolveHeaders` does raise — modelled as
`Except.error` — on a table without a declared header row, and on a
table whose header row yields fewer than 2 entries but which has no
table body. -/
theorem extractHeaders_raises_cex :
    extractHeaders noTheadTable = Except.error "AttributeError" ∧
    extractHeaders noTbodyTable = Except.error "AttributeError" :=
  ⟨rfl, rfl⟩

/-- C6 (amended): `resolveHeaders` returns a HeaderSet whenever the
table has a declared header row and, in case that row yields fewer than
2 entries, also a table body; outside these cases the attribute access
on a missing element raises, and the exception is absorbed by the
Section Extractor's catch-all. -/
theorem extractHeaders_ok_of_thead_tbody (ths : List String)
    (tb : Option (List (List String)))
    (h2 : 2 ≤ ths.length ∨ tb.isSome = true) :
    ∃ hs, extractHeaders { thead := some ths, tbody := tb } =
      Except.ok hs := by
  simp only [extractHeaders]
  by_cases hcond : (ths.map pyStrip) = [] ∨ (ths.map pyStrip).length < 2
  · rw [if_pos hcond]
    have hlt : ths.length < 2 := by
      rcases hcond with hnil | hlt
      · have h0 : ths = [] := by simpa using hnil
        simp [h0]
      · simpa using hlt
    rcases h2 with hge | hsome
    · omega
    · obtain ⟨rows, hrows⟩ := Option.isSome_iff_exists.mp hsome
      subst hrows
      cases rows with
      | nil => exact ⟨ths.map pyStrip, rfl⟩
      | cons r0 rest => exact ⟨r0.map pyStrip, rfl⟩
  · rw [if_neg hcond]
    exact ⟨ths.map pyStrip, rfl⟩

/-- Witness for the amended C6 on a table with a full header row and no
body. -/
theorem extractHeaders_ok_of_thead_tbody_witness :
    (2 ≤ (["Narration", "Mar 2021"] : List String).length ∨
      (none : Option (List (List String))).isSome = true) ∧
    ∃ hs, extractHeaders headerOnlyTable = Except.ok hs :=
  ⟨Or.inl (by decide),
    extractHeaders_ok_of_thead_tbody ["Narration", "Mar 2021"] none
      (Or.inl (by decide))⟩

/-- C7: the Section Extractor never escapes with an error — a missing
section region, a missing data table, or a table body with zero data
rows each yield the empty SectionResult. -/
theorem extractFinancialData_empty_on_missing (doc : RawDocument)
    (sectionId : String)
    (h : findSection doc sectionId = none ∨
      findSection doc sectionId = some none ∨
      ∃ t, findSection doc sectionId = some (some t) ∧ t.tbody = some []) :
    extractFinancialData doc sectionId = [] := by
  unfold extractFinancialData
  by_cases hb : doc.isBlank = true
  · rw [if_pos hb]
  · rw [if_neg hb]
    rcases h with h | h | ⟨t, ht, htb⟩
    · simp only [h]
    · simp only [h]
    · simp only [ht]
      cases hh : extractHeaders t with
      | error e => rfl
      | ok headers =>
        simp only [extractTableData, htb]
        rfl

/-- Witness for C7 on a document whose cash-flow table has an empty
body. -/
theorem extractFinancialData_empty_on_missing_witness :
    (findSection emptyBodyDoc "cash-flow" = none ∨
      findSection emptyBodyDoc "cash-flow" = some none ∨
      ∃ t, findSection emptyBodyDoc "cash-flow" = some (some t) ∧
        t.tbody = some []) ∧
    extractFinancialData emptyBodyDoc "cash-flow" = [] :=
  ⟨Or.inr (Or.inr ⟨emptyBodyTable, rfl, rfl⟩),
    extractFinancialData_empty_on_missing emptyBodyDoc "cash-flow"
      (Or.inr (Or.inr ⟨emptyBodyTable, rfl, rfl⟩))⟩

/-- A record with a non-empty list of entries and nodup keys has an
entry besides the first one when it is longer than one, hence an entry
whose key differs from `row_name`. -/
theorem exists_key_ne_row_name (r : Record)
    (hnd : (r.map Prod.fst).Nodup) (hlen : 1 < r.length) :
    ∃ p, p ∈ r ∧ p.1 ≠ "row_name" := by
  match r with
  | [] => simp at hlen
  | [p] => simp at hlen
  | a :: b :: t =>
    have hab : a.1 ≠ b.1 := by
      simp only [List.map_cons, List.nodup_cons, List.mem_cons] at hnd
      exact fun he => hnd.1 (Or.inl he)
    by_cases ha : a.1 = "row_name"
    · exact ⟨b, by simp, fun hb => hab (by rw [ha, hb])⟩
    · exact ⟨a, by simp, ha⟩

/-- C8: every Record in a returned SectionResult carries at least one
entry beyond its `row_name` key: candidate Records with nothing besides
`row_name` are filtered out by the cleaning pass. -/
theorem record_has_field_beyond_row_name (doc : RawDocument)
    (sectionId : String) (r : Record)
    (h : r ∈ extractFinancialData doc sectionId) :
    ∃ p, p ∈ r ∧ p.1 ≠ "row_name" := by
  unfold extractFinancialData at h
  by_cases hb : doc.isBlank = true
  · rw [if_pos hb] at h
    simp at h
  · rw [if_neg hb] at h
    cases hfs : findSection doc sectionId with
    | none => rw [hfs] at h; simp at h
    | some ot =>
      cases ot with
      | none => rw [hfs] at h; simp at h
      | some table =>
        simp only [hfs] at h
        cases hh : extractHeaders table with
        | error e => simp only [hh] at h; simp at h
        | ok headers =>
          simp only [hh] at h
          cases htd : extractTableData table headers with
          | error e => simp only [htd] at h; simp at h
          | ok data =>
            simp only [htd] at h
            unfold cleanAndValidateData at h
            have hmem := List.mem_filter.mp h
            have hlen : 1 < r.length := by simpa using hmem.2
            unfold extractTableData at htd
            cases htb : table.tbody with
            | none => rw [htb] at htd; exact absurd htd (by simp)
            | some rows =>
              rw [htb] at htd
              have hdata : rows.filterMap (processRow headers) = data := by
                simpa using htd
              obtain ⟨row, hrow, hpr⟩ :=
                List.mem_filterMap.mp (hdata ▸ hmem.1)
              rw [processRow_eq] at hpr
              by_cases hc : row ≠ [] ∧ row.length = headers.length
              · rw [if_pos hc] at hpr
                obtain rfl : r = buildRecord headers row :=
                  (Option.some.inj hpr).symm
                exact exists_key_ne_row_name _
                  (nodup_keys_buildRecord _ _) hlen
              · rw [if_neg hc] at hpr
                exact absurd hpr (by simp)

/-- Witness for C8 at the record extracted from `headerZeroDoc`. -/
theorem record_has_field_beyond_row_name_witness :
    [("row_name", "Sales"), ("", ""),
        ("Mar 2021", "1234"), ("Mar 2022", "2500")] ∈
      extractFinancialData headerZeroDoc "profit-loss" ∧
    ∃ p, p ∈ ([("row_name", "Sales"), ("", ""),
        ("Mar 2021", "1234"), ("Mar 2022", "2500")] : Record) ∧
      p.1 ≠ "row_name" :=
  ⟨by decide,
    record_has_field_beyond_row_name headerZeroDoc "profit-loss" _ (by decide)⟩

/-- C9 counterexample: with the duplicated HeaderSet `["A", "A"]` and
the row `["1", "2"]`, the accepted Record carries a single entry for
label `"A"` (holding the last position's value), not one entry per
header position: the value extracted at the first `"A"` position is not
in the Record under `"A"`. -/
theorem duplicate_header_collapse_cex :
    processRow ["A", "A"] ["1", "2"] =
      some [("row_name", "1"), ("A", "2")] ∧
    (([("row_name", "1"), ("A", "2")] : Record).filter
        (fun p => p.1 == "A")).length = 1 ∧
    ("A", "1") ∉ ([("row_name", "1"), ("A", "2")] : Record) :=
  ⟨by decide, by decide, by decide⟩

/-- C9 (amended): row extraction is positional — headers are zipped
against cells in order, with no label lookup — but Records are
label-keyed dicts, so a duplicated label yields a single Record entry
whose value comes from the last position carrying that label. -/
theorem duplicate_header_positional_last_wins (headers cells : List String)
    (rec : Record) (a : String) (h : processRow headers cells = some rec) :
    (rec.map Prod.fst).Nodup ∧
    (a ≠ "row_name" →
      List.lookup a rec =
        ((headers.zip cells).reverse.find? (fun p => p.1 == a)).map
          (fun q => cleanCellValue (pyStrip q.2))) := by
  rw [processRow_eq] at h
  by_cases hc : cells ≠ [] ∧ cells.length = headers.length
  · rw [if_pos hc] at h
    obtain rfl : rec = buildRecord headers cells := (Option.some.inj h).symm
    refine ⟨nodup_keys_buildRecord _ _, fun ha => ?_⟩
    rw [lookup_buildRecord]
    have hnone : List.lookup a [("row_name", pyStrip (cells.headD ""))] =
        none := by
      have hb : (a == "row_name") = false := beq_eq_false_iff_ne.mpr ha
      simp [List.lookup, hb]
    rw [hnone]
    cases hf : (headers.zip cells).reverse.find? (fun p => p.1 == a) <;> simp
  · rw [if_neg hc] at h
    exact absurd h (by simp)

/-- Witness for the amended C9 at the duplicated-header row. -/
theorem duplicate_header_positional_last_wins_witness :
    processRow ["A", "A"] ["1", "2"] =
      some [("row_name", "1"), ("A", "2")] ∧
    ((([("row_name", "1"), ("A", "2")] : Record).map Prod.fst).Nodup ∧
      (("A" : String) ≠ "row_name" →
        List.lookup "A" [("row_name", "1"), ("A", "2")] =
          (((["A", "A"] : List String).zip ["1", "2"]).reverse.find?
              (fun p => p.1 == "A")).map
            (fun q => cleanCellValue (pyStrip q.2)))) :=
  ⟨by decide,
    duplicate_header_positional_last_wins ["A", "A"] ["1", "2"] _ "A"
      (by decide)⟩

/-- C10 counterexample: when the `row_name`-labelled column's
normalized value coincides with the trimmed first cell (a purely
numeric leading cell), the Record's `row_name` still equals the
trimmed first-cell text, contradicting the claim's "no longer equals"
clause. -/
theorem row_name_header_coincide_cex :
    processRow ["row_name", "B"] ["123", "45"] =
      some [("row_name", "123"), ("B", "45")] ∧
    List.lookup "row_name" [("row_name", "123"), ("B", "45")] =
      some (pyStrip "123") :=
  ⟨by decide, by decide⟩

/-- C10 (amended): when a resolved header label is the literal string
`row_name`, the zip loop overwrites the leading-label entry with that
column's normalized cell value (the last such column when repeated),
so the Record's `row_name` differs from the trimmed first-cell text
whenever the normalized value does. -/
theorem row_name_header_overwrite (headers cells : List String)
    (rec : Record) (q : String × String)
    (h : processRow headers cells = some rec)
    (hf : (headers.zip cells).reverse.find?
      (fun p => p.1 == "row_name") = some q) :
    List.lookup "row_name" rec = some (cleanCellValue (pyStrip q.2)) ∧
    (cleanCellValue (pyStrip q.2) ≠ pyStrip (cells.headD "") →
      List.lookup "row_name" rec ≠ some (pyStrip (cells.headD ""))) := by
  rw [processRow_eq] at h
  by_cases hc : cells ≠ [] ∧ cells.length = headers.length
  · rw [if_pos hc] at h
    obtain rfl : rec = buildRecord headers cells := (Option.some.inj h).symm
    have hl : List.lookup "row_name" (buildRecord headers cells) =
        some (cleanCellValue (pyStrip q.2)) := by
      rw [lookup_buildRecord, hf]
      rfl
    refine ⟨hl, fun hne hcontra => ?_⟩
    rw [hl] at hcontra
    exact hne (Option.some.inj hcontra)
  · rw [if_neg hc] at h
    exact absurd h (by simp)

/-- Witness for the amended C10 at a table whose second header is the
literal string `row_name`. -/
theorem row_name_header_overwrite_witness :
    processRow ["X", "row_name"] ["Sales", "1,234"] =
      some [("row_name", "1234"), ("X", "")] ∧
    (((["X", "row_name"] : List String).zip ["Sales", "1,234"]).reverse.find?
      (fun p => p.1 == "row_name")) = some ("row_name", "1,234") ∧
    (List.lookup "row_name" [("row_name", "1234"), ("X", "")] =
        some (cleanCellValue (pyStrip "1,234")) ∧
      (cleanCellValue (pyStrip "1,234") ≠
          pyStrip ((["Sales", "1,234"] : List String).headD "") →
        List.lookup "row_name" [("row_name", "1234"), ("X", "")] ≠
          some (pyStrip ((["Sales", "1,234"] : List String).headD "")))) :=
  ⟨by decide, by decide,
    row_name_header_overwrite ["X", "row_name"] ["Sales", "1,234"] _
      ("row_name", "1,234") (by decide) (by decide)⟩

end ScreenerScraper
